import Mathlib

/-!
Shallow embedding of the NMEA replay tool (`test_server.py`) and the offline
log analyzer (`check_vdr.py`) from the `nmea_dashboard` repository, together
with theorems settling the specification claims about them.

Modelling conventions:
* Python strings are embedded as `List Char`; Python string slicing
  `s[a:b]` becomes `(s.drop a).take (b - a)` (total, lenient at the ends,
  exactly like Python slices).
* Python `datetime`/`timedelta` arithmetic is embedded over `ℚ` (seconds);
  the real code uses microsecond-resolution `timedelta` and IEEE doubles,
  which agree with the exact-rational model on every value the claims touch.
* Fallible operations (`list[i]`, `int(...)`, `float(...)`, the `datetime`
  constructor) return `Except String`, mirroring the Python exceptions
  (IndexError / ValueError) that the scripts never catch.
* The four `introduce_random_event()` Bernoulli draws and the three
  `randrange` index draws made by one `send_line` call are abstracted into
  an explicit `Draws` record passed in, so the probabilistic branching
  becomes a pure function of the draw outcomes.
-/

/-- `digitsToNat ds` is the value of a string of decimal digit characters,
most significant first (the core of Python `int(s)` on a digit string). -/
def digitsToNat (l : List Char) : Nat :=
  l.foldl (fun n c => n * 10 + (c.toNat - 48)) 0

/-- Python `s.split(',')`: splits a character list on `','`, keeping empty
pieces; the empty string yields `[""]` just as in Python. -/
def splitOnComma : List Char → List (List Char)
  | [] => [[]]
  | c :: rest =>
    match splitOnComma rest with
    | [] => [[]]
    | h :: t => if c = ',' then [] :: h :: t else (c :: h) :: t

/-- Python `data[i]` on a list: `IndexError` when out of range. -/
def getItem : List (List Char) → Nat → Except String (List Char)
  | [], _ => .error "IndexError"
  | x :: _, 0 => .ok x
  | _ :: xs, n + 1 => getItem xs n

/-- Error propagation of uncaught Python exceptions: the second step runs
only when the first one did not raise. -/
def bindE {α β : Type} : Except String α → (α → Except String β) → Except String β
  | .error e, _ => .error e
  | .ok a, f => f a

@[simp] theorem bindE_ok {α β : Type} (a : α) (f : α → Except String β) :
    bindE (.ok a) f = f a := rfl

@[simp] theorem bindE_error {α β : Type} (e : String) (f : α → Except String β) :
    bindE (.error e) f = .error e := rfl

/-- Python `int(s)` restricted to the digit strings the scripts feed it:
succeeds exactly on a nonempty all-digit string, raising `ValueError`
otherwise.  (Real `int` also accepts surrounding whitespace and a sign;
no claim touches those inputs.) -/
def pyInt (s : List Char) : Except String Nat :=
  if s ≠ [] ∧ s.all Char.isDigit then .ok (digitsToNat s) else .error "ValueError"

namespace TestServer

/-- `sentence_type` from `test_server.py`:
`line[3:6] if len(line) > 6 else None`.  Note: no check of the leading
`'$'` marker, unlike the `check_vdr.py` version. -/
def sentence_type (line : List Char) : Option (List Char) :=
  if 6 < line.length then some ((line.drop 3).take 3) else none

end TestServer

namespace CheckVdr

/-- `sentence_type` from `check_vdr.py`:
`line[3:6] if len(line) > 6 and line[0] == "$" else None`. -/
def sentence_type (line : List Char) : Option (List Char) :=
  if 6 < line.length ∧ line.headI = '$' then some ((line.drop 3).take 3) else none

end CheckVdr

example : TestServer.sentence_type "$GPZDA,120000.00,01,01,2023,00,00*6A".toList
    = some "ZDA".toList := by decide

example : TestServer.sentence_type "ABCDEFGH".toList = some "DEF".toList := by decide

example : CheckVdr.sentence_type "ABCDEFGH".toList = none := by decide

example : splitOnComma "a,bc,".toList = ["a".toList, "bc".toList, []] := by decide

deriving instance DecidableEq for Except

example : pyInt "2023".toList = .ok 2023 := by decide

example : pyInt "20a3".toList = .error "ValueError" := by decide

/-- Models Python `int(float(s) * 1000000.0)` with exact rational
arithmetic, for the plain `digits`, `.digits` and `digits.digits` shapes
that `data[1][6:]` can take (real `float` also accepts signs, exponents
and whitespace, which no claim touches; a direct check shows IEEE doubles
return exactly these values for every fractional part of at most three
digits, so the exact model is faithful on the `hhmmss.ss` format). -/
def microFromFrac (s : List Char) : Except String Nat :=
  let ip := s.takeWhile Char.isDigit
  let rest := s.dropWhile Char.isDigit
  if rest = [] then
    if ip = [] then .error "ValueError" else .ok (digitsToNat ip * 1000000)
  else if rest.headI = '.' ∧ rest.tail.all Char.isDigit ∧ (ip ≠ [] ∨ rest.tail ≠ []) then
    .ok ((digitsToNat ip * 10 ^ rest.tail.length + digitsToNat rest.tail) * 1000000
      / 10 ^ rest.tail.length)
  else .error "ValueError"

/-- The decoded timestamp: the argument tuple of Python's
`datetime(year, month, day, hour, minute, second, microsecond)`. -/
structure ZdaTime where
  year : Nat
  month : Nat
  day : Nat
  hour : Nat
  minute : Nat
  second : Nat
  microsecond : Nat
  deriving DecidableEq, Repr

def isLeap (y : Nat) : Bool :=
  y % 4 = 0 && (y % 100 ≠ 0 || y % 400 = 0)

def daysInMonth (y m : Nat) : Nat :=
  if m = 2 then (if isLeap y then 29 else 28)
  else if m = 4 ∨ m = 6 ∨ m = 9 ∨ m = 11 then 30
  else 31

/-- The validation performed by Python's `datetime` constructor: raises
`ValueError` unless every field is in range. -/
def mkDatetime (y mo d h mi s us : Nat) : Except String ZdaTime :=
  if 1 ≤ y ∧ y ≤ 9999 ∧ 1 ≤ mo ∧ mo ≤ 12 ∧ 1 ≤ d ∧ d ≤ daysInMonth y mo
      ∧ h ≤ 23 ∧ mi ≤ 59 ∧ s ≤ 59 ∧ us ≤ 999999 then
    .ok ⟨y, mo, d, h, mi, s, us⟩
  else .error "ValueError"

namespace TestServer

/-- `datetime_from_zda` from `test_server.py`:
```
data = line.split(',')
microsecond = int(float(data[1][6:]) * 1000000.0)
return datetime(int(data[4]), int(data[3]), int(data[2]),
                int(data[1][0:2]), int(data[1][2:4]), int(data[1][4:6]), microsecond)
```
Sub-expressions are evaluated in Python's order (the `microsecond` line
first, then the `datetime` arguments left to right), so the first failing
one determines the raised exception. -/
def datetime_from_zda (line : List Char) : Except String ZdaTime :=
  let data := splitOnComma line
  bindE (getItem data 1) fun f1 =>
  bindE (microFromFrac (f1.drop 6)) fun microsecond =>
  bindE (bindE (getItem data 4) pyInt) fun y =>
  bindE (bindE (getItem data 3) pyInt) fun mo =>
  bindE (bindE (getItem data 2) pyInt) fun d =>
  bindE (pyInt (f1.take 2)) fun h =>
  bindE (pyInt ((f1.drop 2).take 2)) fun mi =>
  bindE (pyInt ((f1.drop 4).take 2)) fun s =>
  mkDatetime y mo d h mi s microsecond

end TestServer

namespace CheckVdr

/-- `datetime_from_zda` from `check_vdr.py` — textually the same decoding
logic as the `test_server.py` copy. -/
def datetime_from_zda (line : List Char) : Except String ZdaTime :=
  let data := splitOnComma line
  bindE (getItem data 1) fun f1 =>
  bindE (microFromFrac (f1.drop 6)) fun microsecond =>
  bindE (bindE (getItem data 4) pyInt) fun y =>
  bindE (bindE (getItem data 3) pyInt) fun mo =>
  bindE (bindE (getItem data 2) pyInt) fun d =>
  bindE (pyInt (f1.take 2)) fun h =>
  bindE (pyInt ((f1.drop 2).take 2)) fun mi =>
  bindE (pyInt ((f1.drop 4).take 2)) fun s =>
  mkDatetime y mo d h mi s microsecond

end CheckVdr

example : TestServer.datetime_from_zda "$GPZDA,120010.29,01,02,2023,00,00*6A".toList
    = .ok ⟨2023, 2, 1, 12, 0, 10, 290000⟩ := by decide

example : TestServer.datetime_from_zda "$XXZDAx\n".toList = .error "IndexError" := by decide

/-! ## Converting a decoded timestamp to a point on the rational time line.

Python compares and subtracts `datetime` values; we embed a `datetime` as
its proleptic-Gregorian second count (with the microsecond part as a
rational fraction), which realises the same order and differences. -/

/-- Days in all years before year `y` of the proleptic Gregorian calendar
(the count behind Python's `date.toordinal`). -/
def daysBeforeYear (y : Nat) : Nat :=
  365 * (y - 1) + (y - 1) / 4 - (y - 1) / 100 + (y - 1) / 400

/-- Days in all months of year `y` before month `m`. -/
def daysBeforeMonth (y m : Nat) : Nat :=
  [0, 0, 31, 59, 90, 120, 151, 181, 212, 243, 273, 304, 334].getD m 334
    + (if 2 < m ∧ isLeap y then 1 else 0)

/-- The rational number of seconds represented by a decoded timestamp. -/
def epochSeconds (z : ZdaTime) : ℚ :=
  (((daysBeforeYear z.year + daysBeforeMonth z.year z.month + (z.day - 1)) * 86400
      + z.hour * 3600 + z.minute * 60 + z.second : ℕ) : ℚ)
    + (z.microsecond : ℚ) / 1000000

/-! ## Rate estimator (`send_file`, lines 40–59 of `test_server.py`). -/

/-- `DEFAULT_INTERVAL = timedelta(milliseconds=50)`, in seconds. -/
def DEFAULT_INTERVAL : ℚ := 1 / 20

def EWMA_ALPHA : ℚ := 1 / 5

/-- The pacing state threaded through `send_file`: the current inter-send
interval (seconds), the `(last_clock, last_timestamp)` sample pair (both
are `None` before the first timestamp sentence and are always assigned
together), and the `line_count` counter. -/
structure RateState where
  interval : ℚ
  last : Option (ℚ × ℚ)
  lineCount : Nat
  deriving DecidableEq, Repr

def initRate : RateState :=
  { interval := DEFAULT_INTERVAL, last := none, lineCount := 0 }

/-- One execution of the timestamp branch of `send_file` (lines 41–59):
first observation just records; a non-positive step in either clock skips
the update; otherwise the interval is re-weighted by the data/real time
ratio under EWMA smoothing.  In every case the sample pair is replaced by
`(clock, timestamp)` and `line_count` is reset to `0`. -/
def observe (st : RateState) (clock timestamp : ℚ) : RateState :=
  let interval :=
    match st.last with
    | none => st.interval
    | some (lastClock, lastTimestamp) =>
      if timestamp ≤ lastTimestamp ∨ clock ≤ lastClock then st.interval
      else
        let rawInterval := st.interval * ((timestamp - lastTimestamp) / (clock - lastClock))
        rawInterval * EWMA_ALPHA + st.interval * (1 - EWMA_ALPHA)
  { interval := interval, last := some (clock, timestamp), lineCount := 0 }

/-! ## Fault injector / fragmenter (`send_line`, lines 79–98). -/

/-- The outcomes of the random draws a single `send_line` call can make:
four independent `introduce_random_event()` Bernoulli trials (each true
with probability 1/25) and the three `randrange` index/character draws.
`randrange(n)` guarantees a result below `n`; theorems that depend on an
index being in range carry that bound as a hypothesis. -/
structure Draws where
  corruptEvent : Bool
  truncateEvent : Bool
  splitEvent : Bool
  deferEvent : Bool
  corruptIdx : Nat
  corruptChar : Char
  truncIdx : Nat
  splitIdx : Nat
  deriving DecidableEq, Repr

/-- `corrupt_data`: replace the character at `idx` with `c`. -/
def corrupt_data (s : List Char) (idx : Nat) (c : Char) : List Char :=
  s.take idx ++ [c] ++ s.drop (idx + 1)

/-- `truncate_data`: truncate to length `idx`. -/
def truncate_data (s : List Char) (idx : Nat) : List Char :=
  s.take idx

/-- The first half of `send_line` (lines 82–85): the corruption trial then
the truncation trial, each applied only when `args.corrupt` is set and its
`introduce_random_event()` draw fired. -/
def fault_stage (corrupt : Bool) (d : Draws) (line : List Char) : List Char :=
  let l1 := if corrupt && d.corruptEvent then corrupt_data line d.corruptIdx d.corruptChar
            else line
  if corrupt && d.truncateEvent then truncate_data l1 d.truncIdx else l1

/-- The second half of `send_line` (lines 86–98): split into two chunks,
or defer the whole line as the next carry, or send it whole.  Returns the
chunks handed to `send_data` in order, and the returned carry. -/
def chunk_stage (d : Draws) (line : List Char) : List (List Char) × List Char :=
  if 0 < line.length ∧ d.splitEvent then
    ([line.take d.splitIdx, line.drop d.splitIdx], [])
  else if d.deferEvent then
    ([], line)
  else
    ([line], [])

/-- `send_line` from `test_server.py`: fault stage then chunk stage.  The
argument is the already-concatenated `carry + line` the caller passes. -/
def send_line (corrupt : Bool) (d : Draws) (line : List Char) :
    List (List Char) × List Char :=
  chunk_stage d (fault_stage corrupt d line)

/-- Observable effects of one replay-loop iteration: a `send_data` call, the
fixed `time.sleep(0.01)` between the two chunks of a split (line 90), and
the pacing `time.sleep(interval.total_seconds())` (line 62). -/
inductive Effect where
  | sent (chunk : List Char)
  | sleepTenMs
  | sleepInterval (interval : ℚ)
  deriving DecidableEq, Repr

/-- The effect trace of one `send_line` call: in the split branch the two
chunks are separated by the fixed 10 ms sleep; the defer branch emits
nothing; otherwise the whole line is sent once. -/
def send_line_trace (corrupt : Bool) (d : Draws) (line : List Char) : List Effect :=
  let l2 := fault_stage corrupt d line
  if 0 < l2.length ∧ d.splitEvent then
    [.sent (l2.take d.splitIdx), .sleepTenMs, .sent (l2.drop d.splitIdx)]
  else if d.deferEvent then []
  else [.sent l2]

/-! ## Replay loop (`send_file`, lines 24–62). -/

/-- The loop state of `send_file`: the carry buffer plus the pacing state. -/
structure LoopState where
  carry : List Char
  rate : RateState
  deriving DecidableEq, Repr

def initLoop : LoopState := { carry := [], rate := initRate }

def zdaType : List Char := ['Z', 'D', 'A']

/-- The `sentence_type(line) in exclude` test (line 37); a `None` type is
never a member of the set of excluded type strings. -/
def inExclude (exclude : List (List Char)) (line : List Char) : Bool :=
  match TestServer.sentence_type line with
  | some t => t ∈ exclude
  | none => false

/-- One iteration of the `send_file` loop body (lines 35–62) on one input
line, given the wall clock reading `datetime.now()` returns and the random
draws of this iteration.  Produces the new loop state and the effect
trace, or the uncaught exception.  An excluded line only logs (`continue`);
a ZDA line feeds the rate estimator, whose decode error propagates; every
transmitted line ends with the pacing sleep at the then-current interval. -/
def send_file_step (exclude : List (List Char)) (corrupt : Bool) (clock : ℚ)
    (d : Draws) (st : LoopState) (line : List Char) :
    Except String (LoopState × List Effect) := do
  let rate0 : RateState := { st.rate with lineCount := st.rate.lineCount + 1 }
  if inExclude exclude line then
    return ({ carry := st.carry, rate := rate0 }, [])
  let rate ←
    if TestServer.sentence_type line = some zdaType then do
      let ts ← TestServer.datetime_from_zda line
      pure (observe rate0 clock (epochSeconds ts))
    else pure rate0
  let carry := (send_line corrupt d (st.carry ++ line)).2
  return ({ carry := carry, rate := rate },
    send_line_trace corrupt d (st.carry ++ line) ++ [.sleepInterval rate.interval])

/-- The whole `send_file` loop over a list of input lines, each paired with
the wall-clock reading and random draws of its iteration. -/
def send_file (exclude : List (List Char)) (corrupt : Bool) (st : LoopState) :
    List (ℚ × Draws × List Char) → Except String (LoopState × List Effect)
  | [] => .ok (st, [])
  | (clock, d, line) :: rest =>
    match send_file_step exclude corrupt clock d st line with
    | .error e => .error e
    | .ok (st', tr) =>
      match send_file exclude corrupt st' rest with
      | .error e => .error e
      | .ok (stFin, trRest) => .ok (stFin, tr ++ trRest)

/-- The successive values of `interval` as the rate estimator digests a
sequence of `(clock, timestamp)` observations. -/
def interval_trace (st : RateState) : List (ℚ × ℚ) → List ℚ
  | [] => [st.interval]
  | (c, t) :: rest => st.interval :: interval_trace (observe st c t) rest

/-! ## Theorems for the claims. -/

/-- C7: with fault injection disabled (`args.corrupt` false) neither the
corruption nor the truncation transformation is ever applied, whatever the
random draws: the effective line reaches the split/defer/send-whole
decision (`chunk_stage`) unmodified. -/
theorem send_line_faults_disabled (d : Draws) (line : List Char) :
    fault_stage false d line = line ∧ send_line false d line = chunk_stage d line := by
  refine ⟨?_, ?_⟩ <;> simp [send_line, fault_stage]

/-- C1: when neither the corruption trial nor the truncation trial fires,
the chunks handed to the transmitter by `send_line`, concatenated in
order and followed by the returned carry (the deferred bytes that a later
call will send), reconstruct `carry + line` exactly: fragmentation and
deferral never drop or duplicate a byte. -/
theorem send_line_concat (corrupt : Bool) (d : Draws) (carry line : List Char)
    (h1 : (corrupt && d.corruptEvent) = false)
    (h2 : (corrupt && d.truncateEvent) = false) :
    (send_line corrupt d (carry ++ line)).1.flatten
        ++ (send_line corrupt d (carry ++ line)).2 = carry ++ line := by
  have hf : fault_stage corrupt d (carry ++ line) = carry ++ line := by
    simp [fault_stage, h1, h2]
  unfold send_line
  rw [hf]
  generalize carry ++ line = l
  unfold chunk_stage
  by_cases hs : 0 < l.length ∧ d.splitEvent = true
  · rw [if_pos hs]
    simp
  · rw [if_neg hs]
    by_cases hd : d.deferEvent = true
    · rw [if_pos hd]
      simp
    · rw [if_neg hd]
      simp

theorem send_line_concat_witness :
    (send_line true ⟨false, false, true, false, 0, 'x', 0, 3⟩
        ("$GP".toList ++ "ZDA,1*77\n".toList)).1.flatten
      ++ (send_line true ⟨false, false, true, false, 0, 'x', 0, 3⟩
        ("$GP".toList ++ "ZDA,1*77\n".toList)).2 = "$GP".toList ++ "ZDA,1*77\n".toList :=
  send_line_concat true ⟨false, false, true, false, 0, 'x', 0, 3⟩
    "$GP".toList "ZDA,1*77\n".toList (by decide) (by decide)

/-- C2: on a strictly advancing observation the rate estimator updates the
interval to `EWMA_ALPHA * (interval * ratio) + (1 - EWMA_ALPHA) * interval`
where `ratio` is data-time elapsed over wall-time elapsed and
`EWMA_ALPHA = 1/5 = 0.2`; concretely, from a 50 ms (= 1/20 s) interval, 10
data-seconds over 5 wall-seconds gives a raw interval of 100 ms and a new
interval of exactly 60 ms (= 3/50 s). -/
theorem observe_ewma_formula (st : RateState) (clock timestamp lc lt : ℚ)
    (hlast : st.last = some (lc, lt)) (ht : lt < timestamp) (hc : lc < clock) :
    (observe st clock timestamp).interval
        = EWMA_ALPHA * (st.interval * ((timestamp - lt) / (clock - lc)))
          + (1 - EWMA_ALPHA) * st.interval
      ∧ (observe ⟨1/20, some (0, 0), 0⟩ 5 10).interval = 3 / 50 := by
  constructor
  · have hcond : ¬(timestamp ≤ lt ∨ clock ≤ lc) := by push_neg; exact ⟨ht, hc⟩
    simp only [observe, hlast]
    rw [if_neg hcond]
    ring
  · show (observe ⟨1/20, some (0, 0), 0⟩ 5 10).interval = 3 / 50
    simp only [observe]
    norm_num [EWMA_ALPHA]

theorem observe_ewma_formula_witness :
    (observe ⟨1/20, some (0, 0), 0⟩ 5 10).interval
      = EWMA_ALPHA * ((1/20 : ℚ) * ((10 - 0) / (5 - 0)))
        + (1 - EWMA_ALPHA) * (1/20 : ℚ) :=
  (observe_ewma_formula ⟨1/20, some (0, 0), 0⟩ 5 10 0 0 rfl (by decide) (by decide)).1

/-- C3: a non-increasing data timestamp or wall-clock sample (after the
first observation) leaves the interval unchanged, and every observation,
anomalous or not, replaces the stored sample pair with the new
`(clock, timestamp)` and resets the lines-sent counter to zero. -/
theorem observe_skip_updates_samples (st : RateState) (clock timestamp lc lt : ℚ)
    (hlast : st.last = some (lc, lt)) (hskip : timestamp ≤ lt ∨ clock ≤ lc) :
    (observe st clock timestamp).interval = st.interval
      ∧ ∀ s : RateState, ∀ c t : ℚ,
          (observe s c t).last = some (c, t) ∧ (observe s c t).lineCount = 0 := by
  refine ⟨?_, fun s c t => ⟨rfl, rfl⟩⟩
  simp only [observe, hlast]
  rw [if_pos hskip]

theorem observe_skip_updates_samples_witness :
    (observe ⟨1/20, some (3, 7), 4⟩ 5 6).interval = 1/20 :=
  (observe_skip_updates_samples ⟨1/20, some (3, 7), 4⟩ 5 6 3 7 rfl (by decide)).1

/-- Positivity of the interval is preserved by every single observation:
the EWMA update only fires when both deltas are strictly positive, and a
convex combination of two positive rationals is positive. -/
theorem observe_interval_pos (st : RateState) (clock timestamp : ℚ)
    (h : 0 < st.interval) : 0 < (observe st clock timestamp).interval := by
  unfold observe
  cases hl : st.last with
  | none => simpa using h
  | some p =>
    obtain ⟨lc, lt⟩ := p
    by_cases hc : timestamp ≤ lt ∨ clock ≤ lc
    · simpa [hc] using h
    · have h1 : lt < timestamp := not_le.mp (not_or.mp hc).1
      have h2 : lc < clock := not_le.mp (not_or.mp hc).2
      have hr : 0 < (timestamp - lt) / (clock - lc) :=
        div_pos (by linarith) (by linarith)
      have hraw : 0 < st.interval * ((timestamp - lt) / (clock - lc)) := mul_pos h hr
      have hpos := add_pos (mul_pos hraw (by norm_num [EWMA_ALPHA] : (0:ℚ) < EWMA_ALPHA))
        (mul_pos h (by norm_num [EWMA_ALPHA] : (0:ℚ) < 1 - EWMA_ALPHA))
      simpa [hc] using hpos

/-- Every interval in an `interval_trace` started from a positive interval
is positive, whatever the observations. -/
theorem interval_trace_pos_of_pos (obs : List (ℚ × ℚ)) :
    ∀ st : RateState, 0 < st.interval → ∀ iv ∈ interval_trace st obs, 0 < iv := by
  induction obs with
  | nil =>
    intro st h iv hiv
    simp only [interval_trace, List.mem_singleton] at hiv
    exact hiv ▸ h
  | cons o rest ih =>
    intro st h iv hiv
    obtain ⟨c, t⟩ := o
    simp only [interval_trace, List.mem_cons] at hiv
    rcases hiv with rfl | hiv
    · exact h
    · exact ih (observe st c t) (observe_interval_pos st c t h) iv hiv

/-- C4: across any finite sequence of observations that is strictly
increasing in both the wall clock and the data timestamp, starting from
the default 50 ms interval, every value the current interval takes is
strictly positive (and, being a rational produced by field operations,
finite by construction). -/
theorem interval_trace_positive (obs : List (ℚ × ℚ))
    (hmono : obs.Chain' fun a b => a.1 < b.1 ∧ a.2 < b.2) :
    ∀ iv ∈ interval_trace initRate obs, 0 < iv :=
  interval_trace_pos_of_pos obs initRate (by norm_num [initRate, DEFAULT_INTERVAL])

theorem interval_trace_positive_witness : 0 < DEFAULT_INTERVAL :=
  interval_trace_positive [(0, 0), (5, 10)]
    (by simp only [List.chain'_cons, List.chain'_singleton, and_true]
        exact ⟨by decide, by decide⟩)
    DEFAULT_INTERVAL (by simp [interval_trace, initRate])

/-- Number of chunks handed to `send_data` in a trace. -/
def count_sends (tr : List Effect) : Nat :=
  (tr.filter fun e => match e with | .sent _ => true | _ => false).length

/-- Number of pacing sleeps (`time.sleep(interval.total_seconds())`) in a
trace. -/
def count_interval_sleeps (tr : List Effect) : Nat :=
  (tr.filter fun e => match e with | .sleepInterval _ => true | _ => false).length

/-- The property claimed by C5, as a decidable check on a trace: every
`send_data` call is immediately followed by a pacing sleep at interval
`iv`. -/
def paced_after_each (iv : ℚ) : List Effect → Bool
  | [] => true
  | .sent _ :: rest =>
    match rest with
    | .sleepInterval j :: _ => decide (j = iv) && paced_after_each iv rest
    | _ => false
  | _ :: rest => paced_after_each iv rest

/-- C5 counterexample: on a plain 10-character line with the split trial
fired at index 3 (faults off, nothing excluded), the loop iteration
transmits two chunks but performs only one pacing sleep — the two sends
are separated by the fixed 10 ms sleep of `send_line`, not by a sleep of
the current interval, so it is false that a pacing sleep of the current
interval follows each transmitted chunk. -/
theorem split_single_pacing_sleep_cex :
    (send_file_step [] false 0 ⟨false, false, true, false, 0, 'x', 0, 3⟩ initLoop
        "$GPGLL,5*\n".toList).map
      (fun r => (count_sends r.2, count_interval_sleeps r.2,
        paced_after_each DEFAULT_INTERVAL r.2))
    = .ok (2, 1, false) := by
  simp [send_file_step, inExclude, TestServer.sentence_type, zdaType, send_line_trace,
    fault_stage, send_line, chunk_stage, count_sends, count_interval_sleeps,
    paced_after_each, initLoop, initRate, Except.map]
  rfl

/-- C5 amended: for a non-excluded, non-timestamp line on which the split
trial fires (with the fragment nonempty after the fault stage), the
iteration's trace is exactly: first chunk, the fixed 10 ms sleep, second
chunk, then a single pacing sleep of the current interval after the second
chunk — the pacing sleep is applied once per line, not after each chunk. -/
theorem split_trace_shape (exclude : List (List Char)) (corrupt : Bool) (clock : ℚ)
    (d : Draws) (st : LoopState) (line : List Char)
    (hex : inExclude exclude line = false)
    (hzda : TestServer.sentence_type line ≠ some zdaType)
    (hlen : 0 < (fault_stage corrupt d (st.carry ++ line)).length)
    (hsplit : d.splitEvent = true) :
    send_file_step exclude corrupt clock d st line
      = .ok ({ carry := [],
               rate := { st.rate with lineCount := st.rate.lineCount + 1 } },
          [.sent ((fault_stage corrupt d (st.carry ++ line)).take d.splitIdx),
           .sleepTenMs,
           .sent ((fault_stage corrupt d (st.carry ++ line)).drop d.splitIdx),
           .sleepInterval st.rate.interval]) := by
  unfold send_file_step
  simp only [hex, Bool.false_eq_true, if_false, hzda, ite_false]
  simp [send_line, send_line_trace, chunk_stage, hlen, hsplit]
  rfl

theorem split_trace_shape_witness :
    send_file_step [] false 0 ⟨false, false, true, false, 0, 'x', 0, 3⟩ initLoop
        "$GPGLL,5*\n".toList
      = .ok ({ carry := [],
               rate := { initLoop.rate with lineCount := initLoop.rate.lineCount + 1 } },
          [.sent ((fault_stage false ⟨false, false, true, false, 0, 'x', 0, 3⟩
              (initLoop.carry ++ "$GPGLL,5*\n".toList)).take 3),
           .sleepTenMs,
           .sent ((fault_stage false ⟨false, false, true, false, 0, 'x', 0, 3⟩
              (initLoop.carry ++ "$GPGLL,5*\n".toList)).drop 3),
           .sleepInterval initLoop.rate.interval]) :=
  split_trace_shape [] false 0 ⟨false, false, true, false, 0, 'x', 0, 3⟩ initLoop
    "$GPGLL,5*\n".toList (by decide) (by decide) (by decide) rfl

/-- C6 counterexample: `test_server.py`'s `sentence_type` does not check
the sentence-start marker: on the 8-character line `ABCDEFGH`, which does
not begin with `'$'`, the claim requires the no-type sentinel, but the
code returns `DEF`. -/
theorem sentence_type_marker_cex :
    "ABCDEFGH".toList.headI ≠ '$'
      ∧ TestServer.sentence_type "ABCDEFGH".toList = some "DEF".toList := by decide

/-- C6 amended: `check_vdr.py`'s classifier returns the 3-character code
exactly when the length exceeds 6 and the line starts with the `'$'`
marker; `test_server.py`'s returns it whenever the length exceeds 6, with
no marker check.  The two agree on lines starting with `'$'` and on short
lines, and differ exactly on the long lines without the marker, where
`test_server` still extracts `line[3:6]` and `check_vdr` returns the
sentinel.  Both are total by construction. -/
theorem sentence_type_agreement (line : List Char) :
    (line.headI = '$' ∨ line.length ≤ 6 →
        TestServer.sentence_type line = CheckVdr.sentence_type line)
      ∧ (6 < line.length → line.headI ≠ '$' →
          TestServer.sentence_type line = some ((line.drop 3).take 3)
            ∧ CheckVdr.sentence_type line = none) := by
  constructor
  · rintro (h | h)
    · simp [TestServer.sentence_type, CheckVdr.sentence_type, h]
    · simp [TestServer.sentence_type, CheckVdr.sentence_type, Nat.not_lt.mpr h]
  · intro hlen hmark
    constructor
    · simp [TestServer.sentence_type, hlen]
    · simp [CheckVdr.sentence_type, hlen, hmark]

theorem sentence_type_agreement_witness :
    TestServer.sentence_type "$GPGLL,5*\n".toList
      = CheckVdr.sentence_type "$GPGLL,5*\n".toList :=
  (sentence_type_agreement "$GPGLL,5*\n".toList).1 (Or.inl (by decide))

/-- C9: the malformed line `$XXZDAx\n` is classified as a ZDA timestamp
sentence (length above 6, `line[3:6] = "ZDA"`) but has no second
comma-separated field, so `datetime_from_zda` fails with the decoding
error (`data[1]` raises), and the replay-loop iteration propagates that
error as fatal instead of catching, skipping or defaulting it. -/
theorem zda_decode_error_fatal :
    TestServer.sentence_type "$XXZDAx\n".toList = some zdaType
      ∧ TestServer.datetime_from_zda "$XXZDAx\n".toList = .error "IndexError"
      ∧ send_file_step [] false 0 ⟨false, false, false, false, 0, 'x', 0, 0⟩ initLoop
          "$XXZDAx\n".toList = .error "IndexError" := by
  refine ⟨by decide, by decide, ?_⟩
  simp [send_file_step, inExclude, TestServer.sentence_type, zdaType, initLoop]
  decide

/-- An excluded line leaves everything but the `line_count` counter
untouched and produces no effects. -/
theorem send_file_step_excluded (exclude : List (List Char)) (corrupt : Bool)
    (clock : ℚ) (d : Draws) (st : LoopState) (line : List Char)
    (h : inExclude exclude line = true) :
    send_file_step exclude corrupt clock d st line
      = .ok ({ carry := st.carry,
               rate := { st.rate with lineCount := st.rate.lineCount + 1 } }, []) := by
  unfold send_file_step
  simp [h]
  rfl

/-- A non-excluded, non-timestamp line goes straight to `send_line`: the
interval and sample pair are untouched, the carry is replaced by
`send_line`'s return value, and the trace is the `send_line` trace
followed by the pacing sleep. -/
theorem send_file_step_not_zda (exclude : List (List Char)) (corrupt : Bool)
    (clock : ℚ) (d : Draws) (st : LoopState) (line : List Char)
    (hex : inExclude exclude line = false)
    (hzda : TestServer.sentence_type line ≠ some zdaType) :
    send_file_step exclude corrupt clock d st line
      = .ok ({ carry := (send_line corrupt d (st.carry ++ line)).2,
               rate := { st.rate with lineCount := st.rate.lineCount + 1 } },
          send_line_trace corrupt d (st.carry ++ line)
            ++ [.sleepInterval st.rate.interval]) := by
  unfold send_file_step
  simp only [hex, Bool.false_eq_true, if_false, hzda, ite_false]
  rfl

/-- With the ZDA type excluded, one loop iteration never changes the
interval: an excluded line skips everything, and a non-excluded line
cannot be a ZDA line, so `observe` is never reached. -/
theorem send_file_step_interval_zda_excluded (exclude : List (List Char))
    (corrupt : Bool) (clock : ℚ) (d : Draws) (st : LoopState) (line : List Char)
    (hmem : zdaType ∈ exclude) (st' : LoopState) (tr : List Effect)
    (hok : send_file_step exclude corrupt clock d st line = .ok (st', tr)) :
    st'.rate.interval = st.rate.interval := by
  by_cases hex : inExclude exclude line = true
  · rw [send_file_step_excluded exclude corrupt clock d st line hex] at hok
    cases hok
    rfl
  · have hex' : inExclude exclude line = false := by simpa using hex
    have hzda : TestServer.sentence_type line ≠ some zdaType := by
      intro hz
      exact hex (by simp [inExclude, hz, hmem])
    rw [send_file_step_not_zda exclude corrupt clock d st line hex' hzda] at hok
    cases hok
    rfl

/-- With the ZDA type excluded, a whole `send_file` run never changes the
interval. -/
theorem send_file_interval_zda_excluded (exclude : List (List Char)) (corrupt : Bool)
    (hmem : zdaType ∈ exclude) (lines : List (ℚ × Draws × List Char)) :
    ∀ st st' tr, send_file exclude corrupt st lines = .ok (st', tr) →
      st'.rate.interval = st.rate.interval := by
  induction lines with
  | nil =>
    intro st st' tr hok
    simp only [send_file] at hok
    cases hok
    rfl
  | cons hd rest ih =>
    intro st st' tr hok
    obtain ⟨clock, d, line⟩ := hd
    cases hstep : send_file_step exclude corrupt clock d st line with
    | error e => simp [send_file, hstep] at hok
    | ok p =>
      obtain ⟨stMid, trMid⟩ := p
      cases hrest : send_file exclude corrupt stMid rest with
      | error e => simp [send_file, hstep, hrest] at hok
      | ok q =>
        obtain ⟨stFin, trRest⟩ := q
        simp only [send_file, hstep, hrest] at hok
        cases hok
        rw [ih stMid _ _ hrest]
        exact send_file_step_interval_zda_excluded exclude corrupt clock d st line
          hmem stMid trMid hstep

/-- C10: a loop iteration on a line whose classified type is excluded
transmits nothing, performs no sleep (its effect trace is empty), and
leaves the carry buffer, the current interval and the stored sample pair
unchanged (only the `line_count` counter is incremented, which the claim
does not mention); and when the ZDA timestamp type itself is excluded the
interval is never updated: any completed `send_file` session from the
initial state ends with the interval still at its 50 ms default. -/
theorem excluded_line_frame (exclude : List (List Char)) (corrupt : Bool) :
    (∀ (clock : ℚ) (d : Draws) (st : LoopState) (line : List Char),
        inExclude exclude line = true →
          send_file_step exclude corrupt clock d st line
            = .ok ({ carry := st.carry,
                     rate := { st.rate with lineCount := st.rate.lineCount + 1 } }, []))
      ∧ (zdaType ∈ exclude → ∀ (lines : List (ℚ × Draws × List Char))
            (st' : LoopState) (tr : List Effect),
          send_file exclude corrupt initLoop lines = .ok (st', tr) →
            st'.rate.interval = DEFAULT_INTERVAL) :=
  ⟨fun clock d st line h => send_file_step_excluded exclude corrupt clock d st line h,
   fun hmem lines st' tr hok =>
     send_file_interval_zda_excluded exclude corrupt hmem lines initLoop st' tr hok⟩

theorem excluded_line_frame_witness :
    send_file_step [zdaType] false 0 ⟨false, false, false, false, 0, 'x', 0, 0⟩ initLoop
        "$GPZDA,1*\n".toList
      = .ok ({ carry := initLoop.carry,
               rate := { initLoop.rate with
                          lineCount := initLoop.rate.lineCount + 1 } }, []) :=
  (excluded_line_frame [zdaType] false).1 0 ⟨false, false, false, false, 0, 'x', 0, 0⟩
    initLoop "$GPZDA,1*\n".toList (by decide)

/-! ## Round trip of the timestamp decoder (C8).

A synthetic encoder builds a ZDA sentence from its six integer sub-fields
and a two-digit sub-second fraction, placing time at comma-field 1, day at
2, month at 3 and year at 4 (with a trailing local-zone field, as in a
real ZDA sentence, so that the year field is clean). -/

/-- The two-character zero-padded decimal rendering of `n < 100`. -/
def two_digits (n : Nat) : List Char :=
  [Nat.digitChar (n / 10), Nat.digitChar (n % 10)]

/-- The four-character zero-padded decimal rendering of `n ≤ 9999`. -/
def four_digits (n : Nat) : List Char :=
  two_digits (n / 100) ++ two_digits (n % 100)

/-- Encoder for a synthetic ZDA sentence
`$XXZDA,hhmmss.ff,dd,mm,yyyy,00`. -/
def encode_zda (h mi s frac d mo y : Nat) : List Char :=
  "$XXZDA".toList ++ ',' ::
    ((two_digits h ++ two_digits mi ++ two_digits s ++ '.' :: two_digits frac) ++ ',' ::
      (two_digits d ++ ',' :: (two_digits mo ++ ',' :: (four_digits y ++ ',' :: "00".toList))))

theorem digitChar_isDigit (n : Nat) (hn : n < 10) : (Nat.digitChar n).isDigit = true := by
  interval_cases n <;> decide

theorem digitChar_toNat (n : Nat) (hn : n < 10) : (Nat.digitChar n).toNat = n + 48 := by
  interval_cases n <;> decide

theorem two_digits_all_digit (n : Nat) (hn : n < 100) :
    (two_digits n).all Char.isDigit = true := by
  simp only [two_digits, List.all_cons, List.all_nil, Bool.and_true]
  rw [digitChar_isDigit (n / 10) (by omega), digitChar_isDigit (n % 10) (by omega)]
  rfl

theorem digitsToNat_two_digits (n : Nat) (hn : n < 100) :
    digitsToNat (two_digits n) = n := by
  simp only [digitsToNat, two_digits, List.foldl]
  rw [digitChar_toNat (n / 10) (by omega), digitChar_toNat (n % 10) (by omega)]
  omega

theorem pyInt_two_digits (n : Nat) (hn : n < 100) : pyInt (two_digits n) = .ok n := by
  unfold pyInt
  rw [if_pos ⟨by simp [two_digits], two_digits_all_digit n hn⟩,
    digitsToNat_two_digits n hn]

theorem four_digits_all_digit (n : Nat) (hn : n ≤ 9999) :
    (four_digits n).all Char.isDigit = true := by
  simp only [four_digits, List.all_append]
  rw [two_digits_all_digit (n / 100) (by omega), two_digits_all_digit (n % 100) (by omega)]
  rfl

theorem digitsToNat_four_digits (n : Nat) (hn : n ≤ 9999) :
    digitsToNat (four_digits n) = n := by
  simp only [digitsToNat, four_digits, two_digits, List.cons_append, List.nil_append,
    List.foldl]
  rw [digitChar_toNat (n / 100 / 10) (by omega), digitChar_toNat (n / 100 % 10) (by omega),
    digitChar_toNat (n % 100 / 10) (by omega), digitChar_toNat (n % 100 % 10) (by omega)]
  omega

theorem pyInt_four_digits (n : Nat) (hn : n ≤ 9999) : pyInt (four_digits n) = .ok n := by
  unfold pyInt
  rw [if_pos ⟨by simp [four_digits, two_digits], four_digits_all_digit n hn⟩,
    digitsToNat_four_digits n hn]

theorem microFromFrac_dot_two_digits (n : Nat) (hn : n < 100) :
    microFromFrac ('.' :: two_digits n) = .ok (n * 10000) := by
  have htake : ('.' :: two_digits n).takeWhile Char.isDigit = [] := rfl
  have hdrop : ('.' :: two_digits n).dropWhile Char.isDigit = '.' :: two_digits n := rfl
  unfold microFromFrac
  rw [htake, hdrop]
  rw [if_neg (by simp)]
  rw [if_pos ⟨rfl, by rw [List.tail_cons]; exact two_digits_all_digit n hn,
    Or.inr (by simp [two_digits])⟩]
  rw [List.tail_cons, digitsToNat_two_digits n hn]
  have hlen : (two_digits n).length = 2 := rfl
  have h0 : digitsToNat [] = 0 := rfl
  rw [hlen, h0]
  norm_num
  omega

theorem splitOnComma_ne_nil (l : List Char) : splitOnComma l ≠ [] := by
  cases l with
  | nil => simp [splitOnComma]
  | cons c rest =>
    unfold splitOnComma
    cases splitOnComma rest with
    | nil => simp
    | cons h t =>
      by_cases hc : c = ',' <;> simp [hc]

theorem splitOnComma_no_comma (a : List Char) (ha : ∀ c ∈ a, c ≠ ',') :
    splitOnComma a = [a] := by
  induction a with
  | nil => rfl
  | cons c rest ih =>
    have hc : c ≠ ',' := ha c (List.mem_cons_self c rest)
    have hrest := ih fun x hx => ha x (List.mem_cons_of_mem c hx)
    unfold splitOnComma
    rw [hrest]
    simp [hc]

theorem splitOnComma_append (a b : List Char) (ha : ∀ c ∈ a, c ≠ ',') :
    splitOnComma (a ++ ',' :: b) = a :: splitOnComma b := by
  induction a with
  | nil =>
    show splitOnComma (',' :: b) = [] :: splitOnComma b
    rw [splitOnComma]
    cases hsp : splitOnComma b with
    | nil => exact absurd hsp (splitOnComma_ne_nil b)
    | cons h t => simp
  | cons c rest ih =>
    have hc : c ≠ ',' := ha c (List.mem_cons_self c rest)
    have hrest := ih fun x hx => ha x (List.mem_cons_of_mem c hx)
    show splitOnComma (c :: (rest ++ ',' :: b)) = (c :: rest) :: splitOnComma b
    rw [splitOnComma, hrest]
    simp [hc]

theorem isDigit_ne_comma (c : Char) (h : c.isDigit = true) : c ≠ ',' := by
  intro e
  rw [e] at h
  exact absurd h (by decide)

theorem two_digits_no_comma (n : Nat) (hn : n < 100) : ∀ c ∈ two_digits n, c ≠ ',' := by
  intro c hc
  refine isDigit_ne_comma c ?_
  have := two_digits_all_digit n hn
  rw [List.all_eq_true] at this
  exact this c hc

theorem four_digits_no_comma (n : Nat) (hn : n ≤ 9999) : ∀ c ∈ four_digits n, c ≠ ',' := by
  intro c hc
  refine isDigit_ne_comma c ?_
  have := four_digits_all_digit n hn
  rw [List.all_eq_true] at this
  exact this c hc

theorem no_comma_of_all (l : List Char) (h : (l.all fun c => c != ',') = true) :
    ∀ c ∈ l, c ≠ ',' := by
  rw [List.all_eq_true] at h
  intro c hc
  simpa using h c hc

theorem daysInMonth_le (y m : Nat) : daysInMonth y m ≤ 31 := by
  unfold daysInMonth
  split
  · split <;> omega
  · split <;> omega

/-- Once the comma split of a line is known to have six fields, the
decoder is the chain of field parses on those fields (fields 1–4 are read
positionally; field 0 and field 5 are ignored). -/
theorem datetime_from_zda_on_fields (line : List Char) (a f1 f2 f3 f4 f5 : List Char)
    (hdata : splitOnComma line = [a, f1, f2, f3, f4, f5]) :
    TestServer.datetime_from_zda line
      = (bindE (microFromFrac (f1.drop 6)) fun microsecond =>
        bindE (pyInt f4) fun y =>
        bindE (pyInt f3) fun mo =>
        bindE (pyInt f2) fun d =>
        bindE (pyInt (f1.take 2)) fun hh =>
        bindE (pyInt ((f1.drop 2).take 2)) fun mi2 =>
        bindE (pyInt ((f1.drop 4).take 2)) fun s2 =>
        mkDatetime y mo d hh mi2 s2 microsecond) := by
  unfold TestServer.datetime_from_zda
  rw [hdata]
  rfl

/-- C8: the decoder reads the `hhmmss.ff` time from comma-field 1 (hour,
minute, second as fixed-width two-character slices, microseconds from the
fractional part), the day from field 2, the month from field 3 and the
year from field 4; encoding any in-range six integer sub-fields plus a
two-digit sub-second fraction into such a sentence and decoding it
recovers the original fields exactly (microseconds being the fraction
scaled to a microsecond count), and `check_vdr.py`'s copy of the decoder
agrees with `test_server.py`'s on every input line. -/
theorem zda_round_trip (h mi s frac d mo y : Nat)
    (hh : h ≤ 23) (hmi : mi ≤ 59) (hs : s ≤ 59) (hf : frac < 100)
    (hd1 : 1 ≤ d) (hd2 : d ≤ daysInMonth y mo) (hmo1 : 1 ≤ mo) (hmo2 : mo ≤ 12)
    (hy1 : 1 ≤ y) (hy2 : y ≤ 9999) :
    TestServer.datetime_from_zda (encode_zda h mi s frac d mo y)
        = .ok ⟨y, mo, d, h, mi, s, frac * 10000⟩
      ∧ ∀ line : List Char,
          CheckVdr.datetime_from_zda line = TestServer.datetime_from_zda line := by
  have hd100 : d < 100 := by
    have := daysInMonth_le y mo
    omega
  have hF1nc : ∀ c ∈ (two_digits h ++ two_digits mi ++ two_digits s
      ++ '.' :: two_digits frac), c ≠ ',' := by
    intro c hc
    rcases List.mem_append.mp hc with hc | hc
    · rcases List.mem_append.mp hc with hc | hc
      · rcases List.mem_append.mp hc with hc | hc
        · exact two_digits_no_comma h (by omega) c hc
        · exact two_digits_no_comma mi (by omega) c hc
      · exact two_digits_no_comma s (by omega) c hc
    · rcases List.mem_cons.mp hc with rfl | hc
      · decide
      · exact two_digits_no_comma frac (by omega) c hc
  have hdata : splitOnComma (encode_zda h mi s frac d mo y)
      = ["$XXZDA".toList,
         two_digits h ++ two_digits mi ++ two_digits s ++ '.' :: two_digits frac,
         two_digits d, two_digits mo, four_digits y, "00".toList] := by
    unfold encode_zda
    rw [splitOnComma_append _ _ (no_comma_of_all _ (by decide)),
      splitOnComma_append _ _ hF1nc,
      splitOnComma_append _ _ (two_digits_no_comma d hd100),
      splitOnComma_append _ _ (two_digits_no_comma mo (by omega)),
      splitOnComma_append _ _ (four_digits_no_comma y hy2),
      splitOnComma_no_comma _ (no_comma_of_all _ (by decide))]
  refine ⟨?_, fun line => rfl⟩
  rw [datetime_from_zda_on_fields _ _ _ _ _ _ _ hdata]
  have hdrop6 : (two_digits h ++ two_digits mi ++ two_digits s
      ++ '.' :: two_digits frac).drop 6 = '.' :: two_digits frac := rfl
  have htake2 : (two_digits h ++ two_digits mi ++ two_digits s
      ++ '.' :: two_digits frac).take 2 = two_digits h := rfl
  have hdrop2 : ((two_digits h ++ two_digits mi ++ two_digits s
      ++ '.' :: two_digits frac).drop 2).take 2 = two_digits mi := rfl
  have hdrop4 : ((two_digits h ++ two_digits mi ++ two_digits s
      ++ '.' :: two_digits frac).drop 4).take 2 = two_digits s := rfl
  simp only [hdrop6, htake2, hdrop2, hdrop4,
    microFromFrac_dot_two_digits frac hf,
    pyInt_four_digits y hy2,
    pyInt_two_digits mo (by omega : mo < 100),
    pyInt_two_digits d hd100,
    pyInt_two_digits h (by omega : h < 100),
    pyInt_two_digits mi (by omega : mi < 100),
    pyInt_two_digits s (by omega : s < 100),
    bindE_ok]
  unfold mkDatetime
  rw [if_pos]
  exact ⟨hy1, hy2, hmo1, hmo2, hd1, hd2, hh, hmi, hs, by omega⟩

theorem zda_round_trip_witness :
    TestServer.datetime_from_zda (encode_zda 12 0 10 29 1 2 2023)
      = .ok ⟨2023, 2, 1, 12, 0, 10, 29 * 10000⟩ :=
  (zda_round_trip 12 0 10 29 1 2 2023 (by decide) (by decide) (by decide) (by decide)
    (by decide) (by decide) (by decide) (by decide) (by decide) (by decide)).1
